import Mathlib

/-!
Shallow embedding of the `Grid` module (`src/common/grid.rs`) of the
chrustmas_advent_2022 repository, together with proofs about its
specification.

Modelling conventions:
* Rust `usize` values are modelled as `Nat`.  None of the operations
  verified here can overflow a 64-bit `usize` on inputs that satisfy the
  stated hypotheses, so no `% 2^64` wrapping is inserted.
* `Vec<T>` is modelled as `List T`.
* Rust panics (here: the `index % 0` remainder-by-zero in
  `index_to_point` when `columns == 0`) are modelled by the `crash`
  constructor of `ExecResult`.
* The `f32` arithmetic on line 99 of `grid.rs`
  (`(index as f32 / self.columns as f32).floor() as usize`) is modelled
  exactly: an IEEE-754 binary32 value is a pair of a 24-bit significand
  and an unbounded binary exponent, casts and division round to nearest
  with ties to even.  Keeping the exponent unbounded is faithful for all
  inputs reachable from `usize` arguments: a cast of `n < 2^64` never
  overflows binary32's finite range, and the quotient of two such casts
  (divisor nonzero) is either zero or at least `2^-64`, hence never
  subnormal.
-/

namespace ChrustmasGrid

/-- `Point` from `grid.rs` (`x`, `y` are `usize`). -/
structure Point where
  x : Nat
  y : Nat
  deriving DecidableEq, Repr

/-- `Grid<T>` from `grid.rs`: a flat row-major element store plus the
`columns` and `rows` counts.  All three fields are public in the source. -/
structure Grid (α : Type) where
  elements : List α
  columns : Nat
  rows : Nat
  deriving DecidableEq, Repr

/-- Result of running a Rust function that may panic: `crash` models a
panic, `ret` a normal return. -/
inductive ExecResult (α : Type) where
  | crash : ExecResult α
  | ret : α → ExecResult α
  deriving DecidableEq, Repr

/-- `Grid::new()`. -/
def Grid.new (α : Type) : Grid α :=
  { elements := [], columns := 0, rows := 0 }

/-- `Grid::with_column_size(columns)`: sets the width only if it is
still `0`. -/
def Grid.withColumnSize (g : Grid α) (columns : Nat) : Grid α :=
  if g.columns = 0 then { g with columns := columns } else g

/-- `Grid::add_row(row)`: adopt the row length as width if the width is
still `0`; otherwise reject rows of the wrong length (printing a
diagnostic, which has no effect on the state); otherwise append the row
and bump `rows`. -/
def Grid.addRow (g : Grid α) (row : List α) : Grid α :=
  let rowLen := row.length
  if g.columns = 0 then
    { g with columns := rowLen, elements := g.elements ++ row, rows := g.rows + 1 }
  else if rowLen ≠ g.columns then
    g
  else
    { g with elements := g.elements ++ row, rows := g.rows + 1 }

/-- `Grid::get_element(point)`: bounds check against `columns`/`rows`,
then `Vec::get` at the flat index. -/
def Grid.getElement (g : Grid α) (p : Point) : Option α :=
  if p.x ≥ g.columns ∨ p.y ≥ g.rows then none
  else g.elements[g.columns * p.y + p.x]?

/-- Fuel-driven chunking of a list into consecutive pieces of length
`c`, mirroring Rust's `slice::chunks(c)` (for `c ≥ 1` and enough fuel). -/
def chunksAux (c : Nat) : Nat → List α → List (List α)
  | 0, _ => []
  | fuel + 1, l => if l.isEmpty then [] else l.take c :: chunksAux c fuel (l.drop c)

/-- `slice::chunks(c)` on a list, with fuel equal to the list length
(always sufficient when `c ≥ 1`). -/
def chunksList (c : Nat) (l : List α) : List (List α) :=
  chunksAux c l.length l

/-- `Grid::get_inner_grid()`: slice away the first and last rows, chunk
the middle into rows, and `add_row` each row without its first and last
element.  (The Rust code panics on grids that violate the documented
`R, C ≥ 3` precondition; this total model is only used, and only
claimed faithful, where that precondition holds.) -/
def Grid.getInnerGrid (g : Grid α) : Grid α :=
  let start := g.columns
  let stop := g.elements.length - g.columns
  let middle := ((g.elements.drop start).take (stop - start))
  (chunksList g.columns middle).foldl
    (fun ng row =>
      let endColumn := row.length - 1
      ng.addRow ((row.drop 1).take (endColumn - 1)))
    (Grid.new α)

/-! ### The binary32 (`f32`) model -/

/-- Round-half-to-even of the rational `a / b` (for `b ≥ 1`), computed
with natural-number division. -/
def rhe (a b : Nat) : Nat :=
  let q := a / b
  let r := a % b
  if 2 * r < b then q
  else if b < 2 * r then q + 1
  else if q % 2 = 0 then q else q + 1

/-- Fuel-driven base-2 logarithm: `natLog2 fuel n = ⌊log₂ n⌋` for
`1 ≤ n ≤ 2 ^ fuel`-ish (fuel `n` always suffices). -/
def natLog2 : Nat → Nat → Nat
  | 0, _ => 0
  | fuel + 1, n => if n < 2 then 0 else natLog2 fuel (n / 2) + 1

/-- `⌊log₂ n⌋` for `n ≥ 1` (junk at `0`). -/
def log2n (n : Nat) : Nat := natLog2 n n

/-- A binary32 value `s * 2 ^ e`: significand `s` (`2^23 ≤ s < 2^24`
when normalized, `0` for zero) and unbounded exponent `e`. -/
structure F32 where
  s : Nat
  e : Int
  deriving DecidableEq, Repr

/-- Cast `usize → f32` (round to nearest, ties to even). -/
def F32.ofNat (n : Nat) : F32 :=
  if n = 0 then ⟨0, 0⟩
  else
    let l := log2n n
    if l ≤ 23 then ⟨n * 2 ^ (23 - l), (l : Int) - 23⟩
    else
      let s := rhe n (2 ^ (l - 23))
      if s < 2 ^ 24 then ⟨s, (l : Int) - 23⟩ else ⟨2 ^ 23, (l : Int) - 22⟩

/-- binary32 division (round to nearest, ties to even); the divisor is
assumed nonzero and both operands normalized or zero. -/
def F32.div (x y : F32) : F32 :=
  if x.s = 0 then ⟨0, 0⟩
  else if y.s ≤ x.s then
    let s := rhe (x.s * 2 ^ 23) y.s
    if s < 2 ^ 24 then ⟨s, x.e - y.e - 23⟩ else ⟨2 ^ 23, x.e - y.e - 22⟩
  else
    let s := rhe (x.s * 2 ^ 24) y.s
    if s < 2 ^ 24 then ⟨s, x.e - y.e - 24⟩ else ⟨2 ^ 23, x.e - y.e - 23⟩

/-- `f32::floor` followed by the cast to `usize`, on a nonnegative
value `s * 2 ^ e`. -/
def F32.floorNat (x : F32) : Nat :=
  if 0 ≤ x.e then x.s * 2 ^ x.e.toNat else x.s / 2 ^ (-x.e).toNat

/-- The whole of line 99 of `grid.rs`:
`(index as f32 / columns as f32).floor() as usize`. -/
def f32floorDiv (index columns : Nat) : Nat :=
  ((F32.ofNat index).div (F32.ofNat columns)).floorNat

/-- `Grid::index_to_point(index)`.  When `columns == 0` the branch
`index >= self.columns` is taken and `index % 0` panics, modelled by
`crash`. -/
def Grid.indexToPoint (g : Grid α) (index : Nat) : ExecResult (Option Point) :=
  if index > g.elements.length then .ret none
  else if g.columns = 0 then .crash
  else
    let x := if index ≥ g.columns then index % g.columns else index
    let y := f32floorDiv index g.columns
    .ret (some ⟨x, y⟩)

/-- The nine `(i, j)` pairs of the nested `-1..=1` loops of
`get_adjacent_points`, in iteration order. -/
def loopDirs : List (Int × Int) :=
  [(-1, -1), (-1, 0), (-1, 1), (0, -1), (0, 0), (0, 1), (1, -1), (1, 0), (1, 1)]

/-- `Grid::get_adjacent_points(point)`. -/
def Grid.getAdjacentPoints (g : Grid α) (p : Point) : List Point :=
  if p.x ≥ g.columns ∨ p.y ≥ g.rows then []
  else
    loopDirs.filterMap fun d =>
      if d.1 = d.2 ∨ d.1 + d.2 = 0 then none
      else if (p.x : Int) + d.1 < 0 ∨ (p.y : Int) + d.2 < 0 then none
      else
        let q : Point := ⟨((p.x : Int) + d.1).toNat, ((p.y : Int) + d.2).toNat⟩
        if q.x < g.columns ∧ q.y < g.rows then some q else none

/-- `Grid::is_edge_node(point)` (the `- 1` is `usize` subtraction,
modelled by truncated `Nat` subtraction). -/
def Grid.isEdgeNode (g : Grid α) (p : Point) : Bool :=
  (p.x = 0 || p.x = g.columns - 1) || (p.y = 0 || p.y = g.rows - 1)

/-! ### C3: rejected rows cause no mutation -/

/-- C3: for every grid whose `columns` count is non-zero and every row
whose length differs from `columns`, `add_row` performs no mutation:
the grid (in particular `rows` and `elements`) is exactly what it was
before. -/
theorem addRow_mismatch_no_mutation (g : Grid α) (row : List α)
    (hc : g.columns ≠ 0) (hl : row.length ≠ g.columns) :
    g.addRow row = g ∧ (g.addRow row).rows = g.rows ∧
      (g.addRow row).elements = g.elements := by
  have h : g.addRow row = g := by
    simp [Grid.addRow, hc, hl]
  exact ⟨h, by rw [h], by rw [h]⟩

/-- Witness for C3 at a concrete grid and row. -/
theorem addRow_mismatch_no_mutation_witness :
    (⟨[1, 2], 2, 1⟩ : Grid Nat).columns ≠ 0 ∧ ([5] : List Nat).length ≠ 2 ∧
      (⟨[1, 2], 2, 1⟩ : Grid Nat).addRow [5] = ⟨[1, 2], 2, 1⟩ :=
  ⟨by decide, by decide,
    (addRow_mismatch_no_mutation (⟨[1, 2], 2, 1⟩ : Grid Nat) [5]
      (by decide) (by decide)).1⟩

/-! ### C8: edge-node characterization -/

/-- C8: on a grid with at least one row and one column, for every
in-bounds point `p`, `is_edge_node p` is true iff `p.x` is `0` or
`columns - 1`, or `p.y` is `0` or `rows - 1`; in particular it is true
at all four corners and false at every strictly interior point. -/
theorem isEdgeNode_spec (g : Grid α) (p : Point)
    (hr : 1 ≤ g.rows) (hc : 1 ≤ g.columns)
    (hx : p.x < g.columns) (hy : p.y < g.rows) :
    (g.isEdgeNode p = true ↔
      (p.x = 0 ∨ p.x = g.columns - 1 ∨ p.y = 0 ∨ p.y = g.rows - 1)) ∧
    g.isEdgeNode ⟨0, 0⟩ = true ∧
    g.isEdgeNode ⟨g.columns - 1, 0⟩ = true ∧
    g.isEdgeNode ⟨0, g.rows - 1⟩ = true ∧
    g.isEdgeNode ⟨g.columns - 1, g.rows - 1⟩ = true ∧
    (∀ q : Point, 0 < q.x → q.x + 1 < g.columns → 0 < q.y → q.y + 1 < g.rows →
      g.isEdgeNode q = false) := by
  have key : ∀ q : Point, (g.isEdgeNode q = true ↔
      (q.x = 0 ∨ q.x = g.columns - 1 ∨ q.y = 0 ∨ q.y = g.rows - 1)) := by
    intro q
    simp only [Grid.isEdgeNode, Bool.or_eq_true, decide_eq_true_eq]
    tauto
  refine ⟨key p, (key ⟨0, 0⟩).mpr (Or.inl rfl),
    (key ⟨g.columns - 1, 0⟩).mpr (Or.inr (Or.inl rfl)),
    (key ⟨0, g.rows - 1⟩).mpr (Or.inl rfl),
    (key ⟨g.columns - 1, g.rows - 1⟩).mpr (Or.inr (Or.inl rfl)), ?_⟩
  intro q h1 h2 h3 h4
  have hne : ¬(q.x = 0 ∨ q.x = g.columns - 1 ∨ q.y = 0 ∨ q.y = g.rows - 1) := by
    omega
  exact Bool.eq_false_iff.mpr fun hT => hne ((key q).mp hT)

/-- Witness for C8 on the 5×4 grid of the repository's tests. -/
theorem isEdgeNode_spec_witness :
    1 ≤ (5 : Nat) ∧ 1 ≤ (4 : Nat) ∧ 2 < 4 ∧ 3 < 5 ∧
      (((⟨List.replicate 20 0, 4, 5⟩ : Grid Nat).isEdgeNode ⟨2, 3⟩ = true ↔
        ((2 : Nat) = 0 ∨ (2 : Nat) = 4 - 1 ∨ (3 : Nat) = 0 ∨ (3 : Nat) = 5 - 1)) ∧
      (⟨List.replicate 20 0, 4, 5⟩ : Grid Nat).isEdgeNode ⟨0, 0⟩ = true ∧
      (⟨List.replicate 20 0, 4, 5⟩ : Grid Nat).isEdgeNode ⟨4 - 1, 0⟩ = true ∧
      (⟨List.replicate 20 0, 4, 5⟩ : Grid Nat).isEdgeNode ⟨0, 5 - 1⟩ = true ∧
      (⟨List.replicate 20 0, 4, 5⟩ : Grid Nat).isEdgeNode ⟨4 - 1, 5 - 1⟩ = true ∧
      (∀ q : Point, 0 < q.x → q.x + 1 < 4 → 0 < q.y → q.y + 1 < 5 →
        (⟨List.replicate 20 0, 4, 5⟩ : Grid Nat).isEdgeNode q = false)) :=
  ⟨by decide, by decide, by decide, by decide,
    isEdgeNode_spec (⟨List.replicate 20 0, 4, 5⟩ : Grid Nat) ⟨2, 3⟩
      (by decide) (by decide) (by decide) (by decide)⟩

/-! ### C9: an empty first row is accepted without establishing a width -/

/-- C9: `add_row` with an empty row on a grid whose `columns` count is
`0` succeeds rather than being rejected: `rows` goes up by one while
`columns` stays `0` and `elements` is unchanged (in particular it stays
empty when it was empty). -/
theorem addRow_empty_zero_columns (g : Grid α) (hc : g.columns = 0) :
    (g.addRow []).rows = g.rows + 1 ∧ (g.addRow []).columns = 0 ∧
      (g.addRow []).elements = g.elements ∧
      (g.elements = [] → (g.addRow []).elements = []) := by
  simp [Grid.addRow, hc]

/-- Witness for C9 on the freshly constructed grid. -/
theorem addRow_empty_zero_columns_witness :
    (Grid.new Nat).columns = 0 ∧
      (((Grid.new Nat).addRow []).rows = (Grid.new Nat).rows + 1 ∧
        ((Grid.new Nat).addRow []).columns = 0 ∧
        ((Grid.new Nat).addRow []).elements = (Grid.new Nat).elements ∧
        ((Grid.new Nat).elements = [] → ((Grid.new Nat).addRow []).elements = [])) :=
  ⟨rfl, addRow_empty_zero_columns (Grid.new Nat) rfl⟩

/-! ### C10: `index_to_point` panics on a zero-column grid -/

/-- C10: on a grid with `columns == 0`, `index_to_point(0)` passes the
`i > elements.length` bounds check and reaches the remainder-by-zero,
i.e. it panics; with `columns ≥ 1` the function never panics, so
`columns ≥ 1` is exactly the totality precondition. -/
theorem indexToPoint_zero_columns_crash (g : Grid α) :
    (g.columns = 0 → ¬ 0 > g.elements.length ∧ g.indexToPoint 0 = .crash) ∧
    (1 ≤ g.columns → ∀ i, g.indexToPoint i ≠ .crash) := by
  constructor
  · intro hc
    refine ⟨by omega, ?_⟩
    simp [Grid.indexToPoint, hc]
  · intro hc i h
    revert h
    unfold Grid.indexToPoint
    split
    · simp
    · rw [if_neg (by omega)]
      simp

/-- Witness for C10: the crash at a concrete zero-column grid and a
normal return at a concrete one-column grid. -/
theorem indexToPoint_zero_columns_crash_witness :
    (¬ 0 > (Grid.new Nat).elements.length ∧
      (Grid.new Nat).indexToPoint 0 = .crash) ∧
      (⟨[5], 1, 1⟩ : Grid Nat).indexToPoint 0 ≠ .crash :=
  ⟨(indexToPoint_zero_columns_crash (Grid.new Nat)).1 rfl,
    (indexToPoint_zero_columns_crash (⟨[5], 1, 1⟩ : Grid Nat)).2 (by decide) 0⟩

/-! ### C7: 4-directional adjacency -/

/-- Evaluating a `filterMap` over the nine loop directions when the five
skipped directions map to `none`. -/
theorem filterMap_loopDirs (f : Int × Int → Option Point)
    (h1 : f (-1, -1) = none) (h2 : f (-1, 1) = none) (h3 : f (0, 0) = none)
    (h4 : f (1, -1) = none) (h5 : f (1, 1) = none) :
    loopDirs.filterMap f =
      (f (-1, 0)).toList ++ (f (0, -1)).toList ++ (f (0, 1)).toList ++ (f (1, 0)).toList := by
  simp only [loopDirs, List.filterMap_cons, h1, h2, h3, h4, h5, List.filterMap_nil]
  cases f (-1, 0) <;> cases f (0, -1) <;> cases f (0, 1) <;> cases f (1, 0) <;> simp

/-- The `filterMap` over the nine loop directions produces at most four
points when the five skipped directions map to `none`. -/
theorem filterMap_loopDirs_length (f : Int × Int → Option Point)
    (h1 : f (-1, -1) = none) (h2 : f (-1, 1) = none) (h3 : f (0, 0) = none)
    (h4 : f (1, -1) = none) (h5 : f (1, 1) = none) :
    (loopDirs.filterMap f).length ≤ 4 := by
  rw [filterMap_loopDirs f h1 h2 h3 h4 h5]
  cases f (-1, 0) <;> cases f (0, -1) <;> cases f (0, 1) <;> cases f (1, 0) <;> simp

/-- C7: `get_adjacent_points` returns the empty list when the query
point is out of bounds; every returned point is in bounds and differs
from the query point by exactly one in exactly one coordinate (no
diagonals, no underflow below zero); and at most four points are
returned. -/
theorem getAdjacentPoints_spec (g : Grid α) (p : Point) :
    ((p.x ≥ g.columns ∨ p.y ≥ g.rows) → g.getAdjacentPoints p = []) ∧
    (∀ q ∈ g.getAdjacentPoints p,
      q.x < g.columns ∧ q.y < g.rows ∧
      ((q.x = p.x ∧ (q.y = p.y + 1 ∨ q.y + 1 = p.y)) ∨
       (q.y = p.y ∧ (q.x = p.x + 1 ∨ q.x + 1 = p.x)))) ∧
    (g.getAdjacentPoints p).length ≤ 4 := by
  by_cases h : p.x ≥ g.columns ∨ p.y ≥ g.rows
  · refine ⟨fun _ => by simp [Grid.getAdjacentPoints, h], ?_, ?_⟩
    · intro q hq
      simp [Grid.getAdjacentPoints, h] at hq
    · simp [Grid.getAdjacentPoints, h]
  · have hrw : g.getAdjacentPoints p =
        loopDirs.filterMap fun d =>
          if d.1 = d.2 ∨ d.1 + d.2 = 0 then none
          else if (p.x : Int) + d.1 < 0 ∨ (p.y : Int) + d.2 < 0 then none
          else if ((p.x : Int) + d.1).toNat < g.columns ∧ ((p.y : Int) + d.2).toNat < g.rows then
            some ⟨((p.x : Int) + d.1).toNat, ((p.y : Int) + d.2).toNat⟩
          else none := by
      simp only [Grid.getAdjacentPoints, if_neg h]
    refine ⟨fun h' => absurd h' h, ?_, ?_⟩
    · intro q hq
      rw [hrw, List.mem_filterMap] at hq
      obtain ⟨d, hd, hfd⟩ := hq
      simp only [loopDirs, List.mem_cons, List.not_mem_nil, or_false] at hd
      rcases hd with rfl | rfl | rfl | rfl | rfl | rfl | rfl | rfl | rfl <;>
        · first
            | (rw [if_neg (by decide)] at hfd
               split_ifs at hfd with h1 h2 <;> try exact Option.noConfusion hfd
               injection hfd with hq'
               subst hq'
               dsimp only at h1 h2 ⊢
               omega)
            | (exfalso; revert hfd; simp)
    · rw [hrw]
      exact filterMap_loopDirs_length _ (by simp) (by simp) (by simp) (by simp) (by simp)

/-- Witness for C7 on the 5×4 test grid at the interior point `(2, 3)`. -/
theorem getAdjacentPoints_spec_witness :
    (((2 : Nat) ≥ 4 ∨ (3 : Nat) ≥ 5) →
      (⟨List.replicate 20 0, 4, 5⟩ : Grid Nat).getAdjacentPoints ⟨2, 3⟩ = []) ∧
    (∀ q ∈ (⟨List.replicate 20 0, 4, 5⟩ : Grid Nat).getAdjacentPoints ⟨2, 3⟩,
      q.x < 4 ∧ q.y < 5 ∧
      ((q.x = 2 ∧ (q.y = 3 + 1 ∨ q.y + 1 = 3)) ∨
       (q.y = 3 ∧ (q.x = 2 + 1 ∨ q.x + 1 = 2)))) ∧
    ((⟨List.replicate 20 0, 4, 5⟩ : Grid Nat).getAdjacentPoints ⟨2, 3⟩).length ≤ 4 :=
  getAdjacentPoints_spec (⟨List.replicate 20 0, 4, 5⟩ : Grid Nat) ⟨2, 3⟩

/-! ### C4 and C5: shape invariant and element lookup -/


/-- Folding `add_row` over a list of rows, i.e. the observable effect of
a sequence of `add_row` calls. -/
def applyRows (g : Grid α) (rowsL : List (List α)) : Grid α :=
  rowsL.foldl Grid.addRow g

/-- A single `add_row` call with a nonempty row preserves the shape
invariant (strengthened with `columns = 0 → rows = 0`). -/
theorem addRow_preserves_inv (g : Grid α) (row : List α) (hrow : row ≠ [])
    (h1 : g.elements.length = g.columns * g.rows) (h2 : g.columns = 0 → g.rows = 0) :
    ((g.addRow row).elements.length = (g.addRow row).columns * (g.addRow row).rows) ∧
      ((g.addRow row).columns = 0 → (g.addRow row).rows = 0) := by
  have hlen : row.length ≠ 0 := fun h => hrow (List.eq_nil_of_length_eq_zero h)
  by_cases hc : g.columns = 0
  · have hr0 : g.rows = 0 := h2 hc
    have he0 : g.elements.length = 0 := by rw [h1, hc]; ring
    simp [Grid.addRow, hc, he0, hr0, hlen]
  · by_cases hl : row.length = g.columns
    · have hrw : g.addRow row = ⟨g.elements ++ row, g.columns, g.rows + 1⟩ := by
        simp only [Grid.addRow]
        rw [if_neg hc, if_neg (by simp [hl])]
      rw [hrw]
      constructor
      · simp only [List.length_append, h1, hl]
        ring
      · intro h
        exact absurd h hc
    · simp only [Grid.addRow, if_neg hc]
      rw [if_pos (by simpa using hl)]
      exact ⟨h1, h2⟩

/-- Shape invariant after any sequence of nonempty `add_row` calls on a
grid already satisfying the strengthened invariant. -/
theorem applyRows_preserves_inv (rs : List (List α)) :
    ∀ g : Grid α, (∀ r ∈ rs, r ≠ []) →
      g.elements.length = g.columns * g.rows → (g.columns = 0 → g.rows = 0) →
      ((applyRows g rs).elements.length =
          (applyRows g rs).columns * (applyRows g rs).rows) ∧
        ((applyRows g rs).columns = 0 → (applyRows g rs).rows = 0) := by
  induction rs with
  | nil => intro g _ h1 h2; exact ⟨h1, h2⟩
  | cons r t ih =>
    intro g hne h1 h2
    have hr : r ≠ [] := hne r (by simp)
    have ht : ∀ r' ∈ t, r' ≠ [] := fun r' hr' => hne r' (by simp [hr'])
    have step := addRow_preserves_inv g r hr h1 h2
    exact ih (g.addRow r) ht step.1 step.2

/-- C4 (amended): starting from a freshly constructed grid, with or
without a column-size hint, any sequence of `add_row` calls with
nonempty rows leaves `elements.length == columns * rows`. -/
theorem addRow_sequence_invariant (n : Nat) (rs : List (List α))
    (h : ∀ r ∈ rs, r ≠ []) :
    ((applyRows ((Grid.new α).withColumnSize n) rs).elements.length =
        (applyRows ((Grid.new α).withColumnSize n) rs).columns *
          (applyRows ((Grid.new α).withColumnSize n) rs).rows) ∧
      ((applyRows (Grid.new α) rs).elements.length =
        (applyRows (Grid.new α) rs).columns * (applyRows (Grid.new α) rs).rows) := by
  constructor
  · exact (applyRows_preserves_inv rs ((Grid.new α).withColumnSize n) h
      (by simp [Grid.new, Grid.withColumnSize]) (by simp [Grid.new, Grid.withColumnSize])).1
  · exact (applyRows_preserves_inv rs (Grid.new α) h (by simp [Grid.new]) (by simp [Grid.new])).1

/-- Counterexample for C4 as stated: adding the empty row and then a
one-element row to a fresh grid yields `elements.length = 1` but
`columns * rows = 1 * 2 = 2`. -/
theorem addRow_sequence_invariant_counterexample :
    ¬ ((applyRows (Grid.new Nat) [[], [0]]).elements.length =
        (applyRows (Grid.new Nat) [[], [0]]).columns *
          (applyRows (Grid.new Nat) [[], [0]]).rows) := by
  decide

/-- Witness for C4 (amended) on a concrete sequence of rows. -/
theorem addRow_sequence_invariant_witness :
    (∀ r ∈ [[0, 1], [2, 3], [4, 5]], r ≠ ([] : List Nat)) ∧
      ((applyRows ((Grid.new Nat).withColumnSize 2) [[0, 1], [2, 3], [4, 5]]).elements.length =
          (applyRows ((Grid.new Nat).withColumnSize 2) [[0, 1], [2, 3], [4, 5]]).columns *
            (applyRows ((Grid.new Nat).withColumnSize 2) [[0, 1], [2, 3], [4, 5]]).rows) ∧
        ((applyRows (Grid.new Nat) [[0, 1], [2, 3], [4, 5]]).elements.length =
          (applyRows (Grid.new Nat) [[0, 1], [2, 3], [4, 5]]).columns *
            (applyRows (Grid.new Nat) [[0, 1], [2, 3], [4, 5]]).rows) :=
  ⟨by decide, addRow_sequence_invariant 2 [[0, 1], [2, 3], [4, 5]] (by decide)⟩

/-- Positional lookup in the concatenation of equal-length rows. -/
theorem flatten_getElem_eq (rowsL : List (List α)) (K : Nat)
    (hK : ∀ row ∈ rowsL, row.length = K) (y x : Nat) (hx : x < K) :
    (rowsL.flatten)[K * y + x]? = rowsL[y]?.bind (fun row => row[x]?) := by
  induction rowsL generalizing y with
  | nil => simp
  | cons r t ih =>
    have hr : r.length = K := hK r (by simp)
    have ht : ∀ row ∈ t, row.length = K := fun row h => hK row (by simp [h])
    cases y with
    | zero =>
      rw [List.flatten_cons, Nat.mul_zero, Nat.zero_add,
        List.getElem?_append_left (by omega)]
      simp
    | succ y' =>
      rw [List.flatten_cons,
        List.getElem?_append_right (by rw [hr]; nlinarith), hr]
      have : K * (y' + 1) + x - K = K * y' + x := by ring_nf; omega
      rw [this, ih ht y']
      simp

/-- Grids built by folding `add_row` over nonempty equal-length rows. -/
theorem applyRows_build_shape (rowsL : List (List α)) (K : Nat) (hK1 : 1 ≤ K)
    (hK : ∀ row ∈ rowsL, row.length = K) :
    ∀ g : Grid α, g.columns = K →
      applyRows g rowsL = ⟨g.elements ++ rowsL.flatten, K, g.rows + rowsL.length⟩ := by
  induction rowsL with
  | nil => intro g hg; cases g; simp_all [applyRows]
  | cons r t ih =>
    intro g hg
    have hr : r.length = K := hK r (by simp)
    have ht : ∀ row ∈ t, row.length = K := fun row h => hK row (by simp [h])
    have hstep : g.addRow r = ⟨g.elements ++ r, K, g.rows + 1⟩ := by
      cases g
      simp only [Grid.addRow] at *
      rw [if_neg (by omega), if_neg (by simp [hr, hg])]
      simp_all
    show applyRows (g.addRow r) t = _
    rw [hstep, ih ht ⟨g.elements ++ r, K, g.rows + 1⟩ rfl]
    simp [List.append_assoc]
    omega

/-- Building a grid from scratch out of nonempty equal-length rows. -/
theorem applyRows_new (rowsL : List (List α)) (K : Nat) (hK1 : 1 ≤ K)
    (hK : ∀ row ∈ rowsL, row.length = K) (hne : rowsL ≠ []) :
    applyRows (Grid.new α) rowsL = ⟨rowsL.flatten, K, rowsL.length⟩ := by
  rcases rowsL with _ | ⟨r, t⟩
  · exact absurd rfl hne
  · have hr : r.length = K := hK r (by simp)
    have ht : ∀ row ∈ t, row.length = K := fun row h => hK row (by simp [h])
    have hstep : (Grid.new α).addRow r = ⟨r, K, 1⟩ := by
      simp [Grid.new, Grid.addRow, hr]
    show applyRows ((Grid.new α).addRow r) t = _
    rw [hstep, applyRows_build_shape t K hK1 ht ⟨r, K, 1⟩ rfl]
    simp [List.flatten_cons]
    omega

/-- C5 (amended): on every grid satisfying the shape invariant,
`get_element` is absent exactly on out-of-bounds points, returns the
flat-index element on in-bounds points, and on a grid built by row
insertion it returns the value placed at row `y`, column `x`. -/
theorem getElement_spec (g : Grid α) (p : Point)
    (hwf : g.elements.length = g.columns * g.rows) :
    ((g.getElement p = none ↔ (p.x ≥ g.columns ∨ p.y ≥ g.rows))) ∧
      (p.x < g.columns → p.y < g.rows →
        g.getElement p = g.elements[g.columns * p.y + p.x]? ∧
          ∃ a, g.getElement p = some a) ∧
      (∀ (rowsL : List (List α)) (K : Nat), 1 ≤ K →
        (∀ row ∈ rowsL, row.length = K) →
        ∀ x y : Nat, x < K → y < rowsL.length →
          (applyRows (Grid.new α) rowsL).getElement ⟨x, y⟩ =
            rowsL[y]?.bind (fun row => row[x]?)) := by
  have hidx : p.x < g.columns → p.y < g.rows →
      g.columns * p.y + p.x < g.elements.length := by
    intro hx hy
    rw [hwf]
    calc g.columns * p.y + p.x < g.columns * p.y + g.columns := by omega
    _ = g.columns * (p.y + 1) := by ring
    _ ≤ g.columns * g.rows := by exact Nat.mul_le_mul_left _ (by omega)
  refine ⟨?_, ?_, ?_⟩
  · constructor
    · intro hnone
      by_contra hob
      push_neg at hob
      rw [Grid.getElement, if_neg (by omega)] at hnone
      rw [List.getElem?_eq_none_iff] at hnone
      have := hidx (by omega) (by omega)
      omega
    · intro hob
      rw [Grid.getElement, if_pos (by omega)]
  · intro hx hy
    have hlt := hidx hx hy
    rw [Grid.getElement, if_neg (by omega)]
    exact ⟨rfl, _, List.getElem?_eq_getElem hlt⟩
  · intro rowsL K hK1 hK x y hx hy
    rw [applyRows_new rowsL K hK1 hK (by rintro rfl; simp at hy)]
    rw [Grid.getElement]
    dsimp only
    rw [if_neg (by omega)]
    exact flatten_getElem_eq rowsL K hK y x hx


/-- Counterexample for C5 as stated: on the (reachable-by-field-access)
grid with empty `elements` but `columns = rows = 1`, the point `(0,0)`
is in bounds yet `get_element` returns `none`, refuting the claimed
absent-iff-out-of-bounds equivalence over all grids. -/
theorem getElement_spec_counterexample :
    ¬ (((⟨[], 1, 1⟩ : Grid Nat).getElement ⟨0, 0⟩ = none) ↔
        ((0 : Nat) ≥ 1 ∨ (0 : Nat) ≥ 1)) := by
  decide

/-- Witness for C5 (amended) on a concrete 2×2 grid. -/
theorem getElement_spec_witness :
    ((⟨[0, 1, 2, 3], 2, 2⟩ : Grid Nat).elements.length = 2 * 2) ∧
      ((((⟨[0, 1, 2, 3], 2, 2⟩ : Grid Nat).getElement ⟨1, 1⟩ = none ↔
          ((1 : Nat) ≥ 2 ∨ (1 : Nat) ≥ 2))) ∧
        ((1 : Nat) < 2 → (1 : Nat) < 2 →
          (⟨[0, 1, 2, 3], 2, 2⟩ : Grid Nat).getElement ⟨1, 1⟩ =
              [0, 1, 2, 3][2 * 1 + 1]? ∧
            ∃ a, (⟨[0, 1, 2, 3], 2, 2⟩ : Grid Nat).getElement ⟨1, 1⟩ = some a) ∧
        (∀ (rowsL : List (List Nat)) (K : Nat), 1 ≤ K →
          (∀ row ∈ rowsL, row.length = K) →
          ∀ x y : Nat, x < K → y < rowsL.length →
            (applyRows (Grid.new Nat) rowsL).getElement ⟨x, y⟩ =
              rowsL[y]?.bind (fun row => row[x]?))) :=
  ⟨by decide, getElement_spec (⟨[0, 1, 2, 3], 2, 2⟩ : Grid Nat) ⟨1, 1⟩ (by decide)⟩

/-! ### C6: the inner grid -/

/-- With enough fuel, chunking a list of length `c * m` yields the `m`
consecutive `c`-length slices. -/
theorem chunksAux_eq (c : Nat) (hc : 1 ≤ c) :
    ∀ (m : Nat) (l : List α) (fuel : Nat), l.length = c * m → l.length ≤ fuel →
      chunksAux c fuel l = (List.range m).map (fun i => (l.drop (c * i)).take c) := by
  intro m
  induction m with
  | zero =>
    intro l fuel hlen _
    have : l = [] := List.eq_nil_of_length_eq_zero (by simpa using hlen)
    subst this
    cases fuel <;> simp [chunksAux]
  | succ m ih =>
    intro l fuel hlen hfuel
    have hlpos : 1 ≤ l.length := by
      rw [hlen]; exact Nat.le_trans hc (Nat.le_mul_of_pos_right c (Nat.succ_pos m))
    obtain ⟨fuel', rfl⟩ : ∃ fuel', fuel = fuel' + 1 := by
      cases fuel
      · omega
      · exact ⟨_, rfl⟩
    have hne : l.isEmpty = false := by
      cases l
      · simp at hlpos
      · rfl
    rw [chunksAux, hne]
    simp only [Bool.false_eq_true, if_false]
    have hdlen : (l.drop c).length = c * m := by
      rw [List.length_drop, hlen, Nat.mul_succ]; omega
    have hdfuel : (l.drop c).length ≤ fuel' := by
      rw [hdlen]
      have : c * m + 1 ≤ c * (m + 1) := by rw [Nat.mul_succ]; omega
      omega
    rw [ih (l.drop c) fuel' hdlen hdfuel]
    rw [List.range_succ_eq_map, List.map_cons, List.map_map]
    refine List.cons_eq_cons.mpr ⟨by simp, ?_⟩
    apply List.map_congr_left
    intro i hi
    simp only [Function.comp_apply, List.drop_drop]
    have harith : c + c * i = c * (i + 1) := by ring
    rw [harith]

/-- C6: on every well-formed grid with at least 3 rows and 3 columns,
`get_inner_grid` yields a `(rows-2) × (columns-2)` grid whose element at
row `r`, column `c` is the original element at row `r+1`, column `c+1`. -/
theorem getInnerGrid_spec (g : Grid α)
    (hwf : g.elements.length = g.columns * g.rows)
    (hr : 3 ≤ g.rows) (hc : 3 ≤ g.columns) :
    (g.getInnerGrid.rows = g.rows - 2 ∧ g.getInnerGrid.columns = g.columns - 2) ∧
      (∀ rr cc : Nat, rr < g.rows - 2 → cc < g.columns - 2 →
        g.getInnerGrid.getElement ⟨cc, rr⟩ = g.getElement ⟨cc + 1, rr + 1⟩) := by
  obtain ⟨k, hk⟩ : ∃ k, g.rows = k + 2 := ⟨g.rows - 2, by omega⟩
  have hk1 : 1 ≤ k := by omega
  have hlen : g.elements.length = g.columns * k + 2 * g.columns := by
    rw [hwf, hk]; ring
  -- the middle slice
  have hmidlen :
      ((g.elements.drop g.columns).take
        (g.elements.length - g.columns - g.columns)).length = g.columns * k := by
    rw [List.length_take, List.length_drop, hlen]
    have h1 : g.columns * k + 2 * g.columns - g.columns - g.columns = g.columns * k := by
      omega
    have h2 : g.columns * k + 2 * g.columns - g.columns = g.columns * k + g.columns := by
      omega
    rw [h1, h2]
    omega
  -- rewrite getInnerGrid as applyRows over the mapped chunks
  have hfold : g.getInnerGrid =
      applyRows (Grid.new α)
        (((chunksList g.columns
            ((g.elements.drop g.columns).take
              (g.elements.length - g.columns - g.columns))).map
          (fun row => (row.drop 1).take (row.length - 1 - 1)))) := by
    rw [Grid.getInnerGrid, applyRows, List.foldl_map]
  have hchunks : chunksList g.columns
      ((g.elements.drop g.columns).take
        (g.elements.length - g.columns - g.columns)) =
      (List.range k).map (fun i =>
        (((g.elements.drop g.columns).take
          (g.elements.length - g.columns - g.columns)).drop (g.columns * i)).take
            g.columns) := by
    rw [chunksList]
    exact chunksAux_eq g.columns (by omega) k _ _ hmidlen (by rw [hmidlen])
  -- abbreviate the middle slice
  have hchunklen : ∀ i, i < k →
      ((((g.elements.drop g.columns).take
        (g.elements.length - g.columns - g.columns)).drop (g.columns * i)).take
          g.columns).length = g.columns := by
    intro i hi
    rw [List.length_take, List.length_drop, hmidlen]
    have h1 : g.columns * (i + 1) ≤ g.columns * k := Nat.mul_le_mul_left _ (by omega)
    have h2 : g.columns * (i + 1) = g.columns * i + g.columns := Nat.mul_succ _ _
    omega
  -- the processed rows, as a map over `range k`
  have hproc : ((chunksList g.columns
      ((g.elements.drop g.columns).take
        (g.elements.length - g.columns - g.columns))).map
      (fun row => (row.drop 1).take (row.length - 1 - 1))) =
      (List.range k).map (fun i =>
        (((((g.elements.drop g.columns).take
          (g.elements.length - g.columns - g.columns)).drop (g.columns * i)).take
            g.columns).drop 1).take (g.columns - 2)) := by
    rw [hchunks, List.map_map]
    apply List.map_congr_left
    intro i hi
    simp only [Function.comp_apply]
    rw [hchunklen i (List.mem_range.mp hi)]
    have : g.columns - 1 - 1 = g.columns - 2 := by omega
    rw [this]
  have hproclen : ∀ row ∈ (List.range k).map (fun i =>
      (((((g.elements.drop g.columns).take
        (g.elements.length - g.columns - g.columns)).drop (g.columns * i)).take
          g.columns).drop 1).take (g.columns - 2)), row.length = g.columns - 2 := by
    intro row hrow
    obtain ⟨i, hi, rfl⟩ := List.mem_map.mp hrow
    rw [List.length_take, List.length_drop, hchunklen i (List.mem_range.mp hi)]
    omega
  have hprocne : ((List.range k).map (fun i =>
      (((((g.elements.drop g.columns).take
        (g.elements.length - g.columns - g.columns)).drop (g.columns * i)).take
          g.columns).drop 1).take (g.columns - 2))) ≠ [] := by
    intro hnil
    have := congrArg List.length hnil
    simp at this
    omega
  have hgrid : g.getInnerGrid =
      ⟨((List.range k).map (fun i =>
        (((((g.elements.drop g.columns).take
          (g.elements.length - g.columns - g.columns)).drop (g.columns * i)).take
            g.columns).drop 1).take (g.columns - 2))).flatten,
        g.columns - 2, k⟩ := by
    rw [hfold, hproc, applyRows_new _ (g.columns - 2) (by omega) hproclen hprocne]
    simp
  refine ⟨⟨by rw [hgrid]; dsimp only; omega, by rw [hgrid]⟩, ?_⟩
  intro rr cc hrr hcc
  have hrrk : rr < k := by omega
  have hcc2 : cc < g.columns - 2 := hcc
  rw [hgrid]
  -- evaluate the inner grid lookup down to the original elements list
  rw [Grid.getElement]
  dsimp only
  rw [if_neg (by omega)]
  rw [flatten_getElem_eq _ (g.columns - 2) hproclen rr cc hcc2]
  rw [List.getElem?_map, List.getElem?_range hrrk]
  simp only [Option.map_some', Option.some_bind]
  -- peel take (c-2), drop 1, take c, drop (c*rr), take (mid), drop c
  rw [List.getElem?_take_of_lt hcc2, List.getElem?_drop]
  have hc1 : 1 + cc < g.columns := by omega
  rw [List.getElem?_take_of_lt hc1, List.getElem?_drop]
  have hidx : g.columns * rr + (1 + cc) < g.elements.length - g.columns - g.columns := by
    have h1 : g.columns * (rr + 1) ≤ g.columns * k := Nat.mul_le_mul_left _ (by omega)
    have h2 : g.columns * (rr + 1) = g.columns * rr + g.columns := Nat.mul_succ _ _
    have h3 : g.elements.length = g.columns * k + 2 * g.columns := hlen
    omega
  rw [List.getElem?_take_of_lt hidx, List.getElem?_drop]
  -- evaluate the outer lookup
  rw [Grid.getElement]
  dsimp only
  rw [if_neg (by omega)]
  have harith : g.columns + (g.columns * rr + (1 + cc)) =
      g.columns * (rr + 1) + (cc + 1) := by ring
  rw [harith]

/-- Witness for C6 on the repository's 5×4 test grid. -/
theorem getInnerGrid_spec_witness :
    ((⟨[0, 0, 1, 5, 1, 3, 1, 7, 8, 7, 1, 10, 99, 2, 1, 12, 9, 20, 61, 2], 4, 5⟩ : Grid Nat).elements.length = 4 * 5) ∧ (3 : Nat) ≤ 5 ∧ (3 : Nat) ≤ 4 ∧
      (((⟨[0, 0, 1, 5, 1, 3, 1, 7, 8, 7, 1, 10, 99, 2, 1, 12, 9, 20, 61, 2], 4, 5⟩ : Grid Nat).getInnerGrid.rows = 5 - 2 ∧
          (⟨[0, 0, 1, 5, 1, 3, 1, 7, 8, 7, 1, 10, 99, 2, 1, 12, 9, 20, 61, 2], 4, 5⟩ : Grid Nat).getInnerGrid.columns = 4 - 2) ∧
        (∀ rr cc : Nat, rr < 5 - 2 → cc < 4 - 2 →
          (⟨[0, 0, 1, 5, 1, 3, 1, 7, 8, 7, 1, 10, 99, 2, 1, 12, 9, 20, 61, 2], 4, 5⟩ : Grid Nat).getInnerGrid.getElement ⟨cc, rr⟩ =
            (⟨[0, 0, 1, 5, 1, 3, 1, 7, 8, 7, 1, 10, 99, 2, 1, 12, 9, 20, 61, 2], 4, 5⟩ : Grid Nat).getElement ⟨cc + 1, rr + 1⟩)) :=
  ⟨by decide, by decide, by decide,
    getInnerGrid_spec (⟨[0, 0, 1, 5, 1, 3, 1, 7, 8, 7, 1, 10, 99, 2, 1, 12, 9, 20, 61, 2], 4, 5⟩ : Grid Nat) (by decide) (by decide) (by decide)⟩

/-! ### C1 and C2: `index_to_point` and the `f32` arithmetic -/

/-- The fuel-driven logarithm is the true base-2 logarithm whenever the
fuel is at least the argument. -/
theorem natLog2_spec : ∀ fuel n : Nat, 1 ≤ n → n ≤ fuel →
    2 ^ natLog2 fuel n ≤ n ∧ n < 2 ^ (natLog2 fuel n + 1) := by
  intro fuel
  induction fuel with
  | zero => intro n h1 h2; omega
  | succ fuel ih =>
    intro n h1 h2
    by_cases hn : n < 2
    · rw [natLog2, if_pos hn]
      exact ⟨by simpa using h1, by simpa using hn⟩
    · rw [natLog2, if_neg hn]
      have hrec := ih (n / 2) (by omega) (by omega)
      obtain ⟨ha, hb⟩ := hrec
      constructor
      · rw [pow_succ]
        omega
      · rw [pow_succ] at hb
        rw [pow_succ, pow_succ]
        omega

/-- Specification of `log2n` on positive arguments. -/
theorem log2n_spec (n : Nat) (h : 1 ≤ n) :
    2 ^ log2n n ≤ n ∧ n < 2 ^ (log2n n + 1) :=
  natLog2_spec n n h le_rfl

/-- Round-half-even of an exact quotient is the exact quotient. -/
theorem rhe_exact (a b : Nat) (hb : 1 ≤ b) (h : b ∣ a) : rhe a b = a / b := by
  obtain ⟨m, rfl⟩ := h
  have hm : b * m % b = 0 := Nat.mul_mod_right b m
  simp only [rhe, hm]
  rw [if_pos (by omega)]

/-- Round-half-even differs from the exact quotient by at most one half:
`|rhe a b - a / b| ≤ 1/2`, stated multiplicatively. -/
theorem rhe_bounds (a b : Nat) (hb : 1 ≤ b) :
    2 * (b * rhe a b) ≤ 2 * a + b ∧ 2 * a ≤ 2 * (b * rhe a b) + b := by
  have hdm := Nat.div_add_mod a b
  have hr : a % b < b := Nat.mod_lt _ hb
  have hbq : b * (a / b + 1) = b * (a / b) + b := by ring
  simp only [rhe]
  split_ifs with h1 h2 h3 <;> omega

/-- Floor of `s * 2 ^ (-F)` lies at `k` when `s` is trapped between
`k * 2^F` and `(k+1) * 2^F`. -/
theorem floorNat_of_bounds (s F k : Nat) (E : Int) (hE : E = -(F : Int))
    (h1 : k * 2 ^ F ≤ s) (h2 : s < (k + 1) * 2 ^ F) :
    F32.floorNat ⟨s, E⟩ = k := by
  rcases Nat.eq_zero_or_pos F with hF0 | hFpos
  · subst hF0
    simp only [pow_zero, Nat.mul_one] at h1 h2
    have hs : s = k := by omega
    simp only [F32.floorNat, hE, hs]
    norm_num
  · have hEneg : ¬ (0 : Int) ≤ E := by omega
    simp only [F32.floorNat, if_neg hEneg]
    have hFt : (-E).toNat = F := by omega
    rw [hFt]
    exact Nat.div_eq_of_lt_le h1 h2

/-- Floor of the (possibly renormalized) division result: if the raw
rounded significand `s'` (at exponent `-F`) is trapped in
`[k * 2^F, (k+1) * 2^F)` and is at most `2^24`, the packed result
floors to `k`. -/
theorem floorNat_renorm (s' F k : Nat) (E : Int) (hE : E = -(F : Int))
    (hs24 : s' ≤ 2 ^ 24)
    (h1 : k * 2 ^ F ≤ s') (h2 : s' < (k + 1) * 2 ^ F) :
    F32.floorNat (if s' < 2 ^ 24 then ⟨s', E⟩ else ⟨2 ^ 23, E + 1⟩) = k := by
  by_cases hlt : s' < 2 ^ 24
  · rw [if_pos hlt]
    exact floorNat_of_bounds s' F k E hE h1 h2
  · rw [if_neg hlt]
    have hs : s' = 2 ^ 24 := by omega
    subst hs
    rcases Nat.eq_zero_or_pos F with hF0 | hFpos
    · subst hF0
      simp only [pow_zero, Nat.mul_one] at h1 h2
      have hk : k = 2 ^ 24 := by omega
      subst hk
      have hE1 : E + 1 = 1 := by omega
      rw [hE1]
      decide
    · obtain ⟨F', rfl⟩ : ∃ F', F = F' + 1 := ⟨F - 1, by omega⟩
      have hEF : E + 1 = -((F' : Int)) := by push_cast [hE]; ring
      apply floorNat_of_bounds _ F' k _ hEF
      · have e1 : k * 2 ^ (F' + 1) = k * 2 ^ F' * 2 := by ring
        omega
      · have e1 : (k + 1) * 2 ^ (F' + 1) = (k + 1) * 2 ^ F' * 2 := by ring
        omega

/-- A positive `usize` value up to `2^24` casts to `f32` exactly: the
resulting significand and exponent reproduce the value (stated scaled
by `2^23` to stay in `Nat`). -/
theorem ofNat_exact (n : Nat) (h1 : 1 ≤ n) (h2 : n ≤ 2 ^ 24) :
    ∃ (s A : Nat), F32.ofNat n = ⟨s, (A : Int) - 23⟩ ∧ s * 2 ^ A = n * 2 ^ 23 ∧
      2 ^ 23 ≤ s ∧ s < 2 ^ 24 ∧ A ≤ 24 := by
  obtain ⟨hl1, hl2⟩ := log2n_spec n h1
  have hl24 : log2n n ≤ 24 := by
    by_contra hcon
    push_neg at hcon
    have : (2 : Nat) ^ 25 ≤ 2 ^ (log2n n) := Nat.pow_le_pow_right (by omega) hcon
    have h25 : (2 : Nat) ^ 25 = 33554432 := by norm_num
    have h24 : (2 : Nat) ^ 24 = 16777216 := by norm_num
    omega
  by_cases hc : log2n n ≤ 23
  · refine ⟨n * 2 ^ (23 - log2n n), log2n n, ?_, ?_, ?_, ?_, by omega⟩
    · simp only [F32.ofNat]
      rw [if_neg (by omega), if_pos hc]
    · rw [Nat.mul_assoc, ← pow_add]
      congr 2
      omega
    · calc (2 : Nat) ^ 23 = 2 ^ (log2n n) * 2 ^ (23 - log2n n) := by
            rw [← pow_add]; congr 1; omega
        _ ≤ n * 2 ^ (23 - log2n n) :=
            Nat.mul_le_mul_right _ hl1
    · calc n * 2 ^ (23 - log2n n) < 2 ^ (log2n n + 1) * 2 ^ (23 - log2n n) :=
            (Nat.mul_lt_mul_right (Nat.pos_pow_of_pos _ (by omega))).mpr hl2
        _ = 2 ^ 24 := by rw [← pow_add]; congr 1; omega
  · have hleq : log2n n = 24 := by omega
    have hn : n = 2 ^ 24 := by
      rw [hleq] at hl1
      omega
    subst hn
    exact ⟨2 ^ 23, 24, by decide, by norm_num, le_rfl, by norm_num, le_rfl⟩

/-- Core correctness of binary32 division-then-floor: if `i` and `c`
are represented exactly as `si * 2^(Ai-23)` and `sc * 2^(Ac-23)` (scaled
identities in `Nat`), then rounding `si * 2^T / sc` half-to-even,
renormalizing, and flooring yields exactly `i / c`. -/
theorem floor_rhe_core (i c si sc Ai Ac T : Nat) (E : Int)
    (hc1 : 1 ≤ c) (hipos : 1 ≤ i)
    (hvi : si * 2 ^ Ai = i * 2 ^ 23) (hvc : sc * 2 ^ Ac = c * 2 ^ 23)
    (hsc1 : 2 ^ 23 ≤ sc) (hsc2 : sc < 2 ^ 24)
    (hT : 23 ≤ T)
    (hAiT : sc ∣ si * 2 ^ T ∨ Ai ≤ T)
    (hub : si * 2 ^ T < sc * 2 ^ 24)
    (hE : E = (Ai : Int) - (Ac : Int) - (T : Int)) :
    F32.floorNat
      (if rhe (si * 2 ^ T) sc < 2 ^ 24 then ⟨rhe (si * 2 ^ T) sc, E⟩
       else ⟨2 ^ 23, E + 1⟩) = i / c := by
  have hscpos : 1 ≤ sc := le_trans (by norm_num) hsc1
  have hdm := Nat.div_add_mod i c
  have hrc : i % c < c := Nat.mod_lt _ (by omega)
  by_cases hdvd : sc ∣ si * 2 ^ T
  · -- the quotient is exactly representable
    have hsval : sc * rhe (si * 2 ^ T) sc = si * 2 ^ T := by
      rw [rhe_exact _ _ hscpos hdvd]
      exact Nat.mul_div_cancel' hdvd
    have hs24 : rhe (si * 2 ^ T) sc < 2 ^ 24 := by
      have h1 : sc * rhe (si * 2 ^ T) sc < sc * 2 ^ 24 := by rw [hsval]; exact hub
      exact Nat.lt_of_mul_lt_mul_left h1
    rw [if_pos hs24]
    by_cases hEsign : Ac + T ≤ Ai
    · -- nonnegative exponent: the quotient is the integer s' * 2^(Ai-Ac-T)
      have hAiEq : (Ai - Ac - T) + Ac + T = Ai := by omega
      have key : c * (rhe (si * 2 ^ T) sc * 2 ^ (Ai - Ac - T)) = i := by
        have hpos : 0 < sc * 2 ^ (Ac + T) :=
          Nat.mul_pos (by omega) (Nat.pos_pow_of_pos _ (by omega))
        refine Nat.eq_of_mul_eq_mul_right hpos ?_
        calc (c * (rhe (si * 2 ^ T) sc * 2 ^ (Ai - Ac - T))) * (sc * 2 ^ (Ac + T))
            = (sc * rhe (si * 2 ^ T) sc) * c * 2 ^ ((Ai - Ac - T) + Ac + T) := by ring
          _ = (si * 2 ^ T) * c * 2 ^ Ai := by rw [hsval, hAiEq]
          _ = (si * 2 ^ Ai) * (c * 2 ^ T) := by ring
          _ = (i * 2 ^ 23) * (c * 2 ^ T) := by rw [hvi]
          _ = i * (c * 2 ^ 23) * 2 ^ T := by ring
          _ = i * (sc * 2 ^ Ac) * 2 ^ T := by rw [hvc]
          _ = i * (sc * 2 ^ (Ac + T)) := by ring
      have hE0 : (0 : Int) ≤ E := by omega
      have hEt : E.toNat = Ai - Ac - T := by omega
      simp only [F32.floorNat, if_pos hE0]
      rw [hEt]
      have hdivc : i / c = rhe (si * 2 ^ T) sc * 2 ^ (Ai - Ac - T) := by
        rw [← key]
        exact Nat.mul_div_cancel_left _ (by omega)
      rw [hdivc]
    · -- negative exponent: reduce to the trapping bounds
      push_neg at hEsign
      have hFA : (Ac + T - Ai) + Ai = Ac + T := by omega
      have key : c * rhe (si * 2 ^ T) sc = i * 2 ^ (Ac + T - Ai) := by
        have hpos : 0 < sc * 2 ^ Ai :=
          Nat.mul_pos (by omega) (Nat.pos_pow_of_pos _ (by omega))
        refine Nat.eq_of_mul_eq_mul_right hpos ?_
        calc (c * rhe (si * 2 ^ T) sc) * (sc * 2 ^ Ai)
            = (sc * rhe (si * 2 ^ T) sc) * c * 2 ^ Ai := by ring
          _ = (si * 2 ^ T) * c * 2 ^ Ai := by rw [hsval]
          _ = (si * 2 ^ Ai) * (c * 2 ^ T) := by ring
          _ = (i * 2 ^ 23) * (c * 2 ^ T) := by rw [hvi]
          _ = i * (c * 2 ^ 23) * 2 ^ T := by ring
          _ = i * (sc * 2 ^ Ac) * 2 ^ T := by rw [hvc]
          _ = i * (sc * 2 ^ (Ac + T)) := by ring
          _ = i * (sc * 2 ^ ((Ac + T - Ai) + Ai)) := by rw [hFA]
          _ = (i * 2 ^ (Ac + T - Ai)) * (sc * 2 ^ Ai) := by ring
      have hkb1 : (i / c) * 2 ^ (Ac + T - Ai) ≤ rhe (si * 2 ^ T) sc := by
        have h1 : c * ((i / c) * 2 ^ (Ac + T - Ai)) ≤ c * rhe (si * 2 ^ T) sc := by
          rw [key]
          calc c * ((i / c) * 2 ^ (Ac + T - Ai))
              = (i / c * c) * 2 ^ (Ac + T - Ai) := by ring
            _ ≤ i * 2 ^ (Ac + T - Ai) :=
              Nat.mul_le_mul_right _ (Nat.div_mul_le_self i c)
        exact Nat.le_of_mul_le_mul_left h1 (by omega)
      have hkb2 : rhe (si * 2 ^ T) sc < (i / c + 1) * 2 ^ (Ac + T - Ai) := by
        have h2 : i < c * (i / c + 1) := by
          have e : c * (i / c + 1) = c * (i / c) + c := by ring
          omega
        have h1 : c * rhe (si * 2 ^ T) sc < c * ((i / c + 1) * 2 ^ (Ac + T - Ai)) := by
          rw [key]
          calc i * 2 ^ (Ac + T - Ai)
              < (c * (i / c + 1)) * 2 ^ (Ac + T - Ai) :=
                (Nat.mul_lt_mul_right (Nat.pos_pow_of_pos _ (by omega))).mpr h2
            _ = c * ((i / c + 1) * 2 ^ (Ac + T - Ai)) := by ring
        exact Nat.lt_of_mul_lt_mul_left h1
      have hEneg : E = -((Ac + T - Ai : Nat) : Int) := by omega
      exact floorNat_of_bounds _ (Ac + T - Ai) (i / c) E hEneg hkb1 hkb2
  · -- rounding is inexact; then c does not divide i and the error is
    -- strictly less than the distance to the floor boundaries
    have hAiT' : Ai ≤ T := hAiT.resolve_left hdvd
    have hndvd : ¬ c ∣ i := by
      intro hdc
      apply hdvd
      obtain ⟨m, hm⟩ := hdc
      refine ⟨m * 2 ^ (T - Ai) * 2 ^ Ac, ?_⟩
      have hTA : Ai + (T - Ai) = T := by omega
      calc si * 2 ^ T = si * 2 ^ (Ai + (T - Ai)) := by rw [hTA]
        _ = (si * 2 ^ Ai) * 2 ^ (T - Ai) := by ring
        _ = (i * 2 ^ 23) * 2 ^ (T - Ai) := by rw [hvi]
        _ = (c * m * 2 ^ 23) * 2 ^ (T - Ai) := by rw [hm]
        _ = m * 2 ^ (T - Ai) * (c * 2 ^ 23) := by ring
        _ = m * 2 ^ (T - Ai) * (sc * 2 ^ Ac) := by rw [hvc]
        _ = sc * (m * 2 ^ (T - Ai) * 2 ^ Ac) := by ring
    have hr1 : 1 ≤ i % c :=
      Nat.pos_of_ne_zero fun h0 => hndvd (Nat.dvd_of_mod_eq_zero h0)
    obtain ⟨hup, hlo⟩ := rhe_bounds (si * 2 ^ T) sc hscpos
    have hFA : (Ac + T - Ai) + Ai = Ac + T := by omega
    have hCX : c * 2 ^ (T + 23) = (sc * 2 ^ Ai) * 2 ^ (Ac + T - Ai) := by
      calc c * 2 ^ (T + 23) = (c * 2 ^ 23) * 2 ^ T := by ring
        _ = (sc * 2 ^ Ac) * 2 ^ T := by rw [hvc]
        _ = sc * 2 ^ (Ac + T) := by ring
        _ = sc * 2 ^ ((Ac + T - Ai) + Ai) := by rw [hFA]
        _ = (sc * 2 ^ Ai) * 2 ^ (Ac + T - Ai) := by ring
    have hupS : 2 * ((sc * 2 ^ Ai) * rhe (si * 2 ^ T) sc) ≤
        2 * (i * 2 ^ (T + 23)) + sc * 2 ^ Ai := by
      have h1 := Nat.mul_le_mul_right (2 ^ Ai) hup
      have e1 : (2 * (sc * rhe (si * 2 ^ T) sc)) * 2 ^ Ai =
          2 * ((sc * 2 ^ Ai) * rhe (si * 2 ^ T) sc) := by ring
      have e2 : (2 * (si * 2 ^ T) + sc) * 2 ^ Ai =
          2 * ((si * 2 ^ Ai) * 2 ^ T) + sc * 2 ^ Ai := by ring
      rw [e1, e2, hvi] at h1
      have e3 : 2 * ((i * 2 ^ 23) * 2 ^ T) = 2 * (i * 2 ^ (T + 23)) := by ring
      rw [e3] at h1
      exact h1
    have hloS : 2 * (i * 2 ^ (T + 23)) ≤
        2 * ((sc * 2 ^ Ai) * rhe (si * 2 ^ T) sc) + sc * 2 ^ Ai := by
      have h1 := Nat.mul_le_mul_right (2 ^ Ai) hlo
      have e1 : (2 * (sc * rhe (si * 2 ^ T) sc) + sc) * 2 ^ Ai =
          2 * ((sc * 2 ^ Ai) * rhe (si * 2 ^ T) sc) + sc * 2 ^ Ai := by ring
      have e2 : (2 * (si * 2 ^ T)) * 2 ^ Ai = 2 * ((si * 2 ^ Ai) * 2 ^ T) := by ring
      rw [e1, e2, hvi] at h1
      have e3 : 2 * ((i * 2 ^ 23) * 2 ^ T) = 2 * (i * 2 ^ (T + 23)) := by ring
      rw [e3] at h1
      exact h1
    have hX : sc * 2 ^ Ai < 2 ^ (T + 24) := by
      have b1 : (2 : Nat) ^ Ai ≤ 2 ^ T := Nat.pow_le_pow_right (by omega) hAiT'
      have b2 : sc * 2 ^ Ai ≤ sc * 2 ^ T := Nat.mul_le_mul_left sc b1
      have b3 : sc * 2 ^ T < 2 ^ 24 * 2 ^ T := by
        have hp : 0 < (2 : Nat) ^ T := Nat.pos_pow_of_pos T (by omega)
        exact (Nat.mul_lt_mul_right hp).mpr hsc2
      have b4 : (2 : Nat) ^ (T + 24) = 2 ^ 24 * 2 ^ T := by
        have ht : T + 24 = 24 + T := by omega
        rw [ht, pow_add]
      rw [b4]
      exact Nat.lt_of_le_of_lt b2 b3
    have e4 : 2 ^ (T + 24) = 2 * 2 ^ (T + 23) := by
      have h : T + 24 = (T + 23) + 1 := by omega
      rw [h, pow_succ]; ring
    have hkb2 : rhe (si * 2 ^ T) sc < (i / c + 1) * 2 ^ (Ac + T - Ai) := by
      have hic : i + 1 ≤ c * (i / c + 1) := by
        have e : c * (i / c + 1) = c * (i / c) + c := by ring
        omega
      have h5 := Nat.mul_le_mul_right (2 * 2 ^ (T + 23)) hic
      have e5 : (i + 1) * (2 * 2 ^ (T + 23)) =
          2 * (i * 2 ^ (T + 23)) + 2 * 2 ^ (T + 23) := by ring
      have e6 : (c * (i / c + 1)) * (2 * 2 ^ (T + 23)) =
          2 * (c * (i / c + 1)) * 2 ^ (T + 23) := by ring
      have h1 : 2 * ((sc * 2 ^ Ai) * rhe (si * 2 ^ T) sc) <
          2 * (c * (i / c + 1)) * 2 ^ (T + 23) := by omega
      have e7 : 2 * (c * (i / c + 1)) * 2 ^ (T + 23) =
          (2 * (sc * 2 ^ Ai)) * ((i / c + 1) * 2 ^ (Ac + T - Ai)) := by
        calc 2 * (c * (i / c + 1)) * 2 ^ (T + 23)
            = 2 * (i / c + 1) * (c * 2 ^ (T + 23)) := by ring
          _ = 2 * (i / c + 1) * ((sc * 2 ^ Ai) * 2 ^ (Ac + T - Ai)) := by rw [hCX]
          _ = (2 * (sc * 2 ^ Ai)) * ((i / c + 1) * 2 ^ (Ac + T - Ai)) := by ring
      have e8 : 2 * ((sc * 2 ^ Ai) * rhe (si * 2 ^ T) sc) =
          (2 * (sc * 2 ^ Ai)) * rhe (si * 2 ^ T) sc := by ring
      rw [e7, e8] at h1
      exact Nat.lt_of_mul_lt_mul_left h1
    have hkb1 : (i / c) * 2 ^ (Ac + T - Ai) ≤ rhe (si * 2 ^ T) sc := by
      have hic2 : c * (i / c) + 1 ≤ i := by omega
      have h5 := Nat.mul_le_mul_right (2 * 2 ^ (T + 23)) hic2
      have e5 : (c * (i / c) + 1) * (2 * 2 ^ (T + 23)) =
          2 * (c * (i / c)) * 2 ^ (T + 23) + 2 * 2 ^ (T + 23) := by ring
      have e6 : i * (2 * 2 ^ (T + 23)) = 2 * (i * 2 ^ (T + 23)) := by ring
      have h6 : 2 * (c * (i / c)) * 2 ^ (T + 23) <
          2 * ((sc * 2 ^ Ai) * rhe (si * 2 ^ T) sc) := by omega
      have e7 : 2 * (c * (i / c)) * 2 ^ (T + 23) =
          (2 * (sc * 2 ^ Ai)) * ((i / c) * 2 ^ (Ac + T - Ai)) := by
        calc 2 * (c * (i / c)) * 2 ^ (T + 23)
            = 2 * (i / c) * (c * 2 ^ (T + 23)) := by ring
          _ = 2 * (i / c) * ((sc * 2 ^ Ai) * 2 ^ (Ac + T - Ai)) := by rw [hCX]
          _ = (2 * (sc * 2 ^ Ai)) * ((i / c) * 2 ^ (Ac + T - Ai)) := by ring
      have e8 : 2 * ((sc * 2 ^ Ai) * rhe (si * 2 ^ T) sc) =
          (2 * (sc * 2 ^ Ai)) * rhe (si * 2 ^ T) sc := by ring
      rw [e7, e8] at h6
      exact le_of_lt (Nat.lt_of_mul_lt_mul_left h6)
    have hs24 : rhe (si * 2 ^ T) sc ≤ 2 ^ 24 := by
      by_contra hcon
      push_neg at hcon
      have h5 : sc * (2 ^ 24 + 1) ≤ sc * rhe (si * 2 ^ T) sc :=
        Nat.mul_le_mul_left _ (by omega)
      have e5 : sc * (2 ^ 24 + 1) = sc * 2 ^ 24 + sc := by ring
      omega
    have hEneg : E = -((Ac + T - Ai : Nat) : Int) := by omega
    exact floorNat_renorm _ (Ac + T - Ai) (i / c) E hEneg hs24 hkb1 hkb2

/-- Line 99 of `grid.rs` computes the exact integer quotient whenever
both operands are at most `2^24` (the range where binary32 is exact
enough) and the divisor is nonzero. -/
theorem f32floorDiv_eq_div (i c : Nat) (hc1 : 1 ≤ c) (hi : i ≤ 2 ^ 24)
    (hc2 : c ≤ 2 ^ 24) : f32floorDiv i c = i / c := by
  rcases Nat.eq_zero_or_pos i with rfl | hipos
  · simp [f32floorDiv, F32.ofNat, F32.div, F32.floorNat]
  · obtain ⟨si, Ai, hxi, hvi, hsi1, hsi2, hAi⟩ := ofNat_exact i hipos hi
    obtain ⟨sc, Ac, hxc, hvc, hsc1, hsc2, hAc⟩ := ofNat_exact c hc1 hc2
    rw [f32floorDiv, hxi, hxc]
    have hsi0 : ¬ si = 0 := by omega
    simp only [F32.div]
    rw [if_neg hsi0]
    by_cases hAB : sc ≤ si
    · rw [if_pos hAB]
      have hEe : (Ai : Int) - 23 - ((Ac : Int) - 23) - 22 =
          ((Ai : Int) - 23 - ((Ac : Int) - 23) - 23) + 1 := by ring
      rw [hEe]
      have hAiT : sc ∣ si * 2 ^ 23 ∨ Ai ≤ 23 := by
        by_cases h23 : Ai ≤ 23
        · exact Or.inr h23
        · left
          have hAi24 : Ai = 24 := by omega
          have hsi : si = 2 ^ 23 := by
            rw [hAi24] at hvi
            have h2si : 2 * si = i := by
              have e : si * 2 ^ 24 = (2 * si) * 2 ^ 23 := by ring
              rw [e] at hvi
              exact Nat.eq_of_mul_eq_mul_right (by norm_num) hvi
            omega
          have hsc : sc = 2 ^ 23 := by omega
          exact ⟨si, by rw [hsc]; ring⟩
      have hub : si * 2 ^ 23 < sc * 2 ^ 24 := by
        have h1 : si < 2 * sc := by omega
        calc si * 2 ^ 23 < (2 * sc) * 2 ^ 23 :=
              (Nat.mul_lt_mul_right (by norm_num)).mpr h1
          _ = sc * 2 ^ 24 := by ring
      exact floor_rhe_core i c si sc Ai Ac 23 _ hc1 hipos hvi hvc hsc1 hsc2
        (by norm_num) hAiT hub (by push_cast; ring)
    · rw [if_neg hAB]
      have hEe : (Ai : Int) - 23 - ((Ac : Int) - 23) - 23 =
          ((Ai : Int) - 23 - ((Ac : Int) - 23) - 24) + 1 := by ring
      rw [hEe]
      have hub : si * 2 ^ 24 < sc * 2 ^ 24 :=
        (Nat.mul_lt_mul_right (by norm_num)).mpr (by omega)
      exact floor_rhe_core i c si sc Ai Ac 24 _ hc1 hipos hvi hvc hsc1 hsc2
        (by norm_num) (Or.inr hAi) hub (by push_cast; ring)

/-- Full characterization of `index_to_point` on grids with at least
one column, shared by the claims about it. -/
theorem indexToPoint_char (g : Grid α) (i : Nat) (hc : 1 ≤ g.columns) :
    (g.indexToPoint i = .ret none ↔ i > g.elements.length) ∧
    (i ≤ g.elements.length →
      ∃ y, g.indexToPoint i = .ret (some ⟨i % g.columns, y⟩) ∧
        (i < g.columns → i % g.columns = i) ∧
        (i ≤ 2 ^ 24 → g.columns ≤ 2 ^ 24 → y = i / g.columns)) := by
  have hc0 : ¬ g.columns = 0 := by omega
  constructor
  · constructor
    · intro h
      by_contra hle
      push_neg at hle
      simp only [Grid.indexToPoint] at h
      rw [if_neg (by omega), if_neg hc0] at h
      exact ExecResult.noConfusion h (fun he => Option.noConfusion he)
    · intro h
      simp only [Grid.indexToPoint]
      rw [if_pos (by omega)]
  · intro hle
    simp only [Grid.indexToPoint]
    rw [if_neg (by omega), if_neg hc0]
    refine ⟨f32floorDiv i g.columns, ?_, fun h => Nat.mod_eq_of_lt h,
      fun h1 h2 => f32floorDiv_eq_div i g.columns hc h1 h2⟩
    have hx : (if i ≥ g.columns then i % g.columns else i) = i % g.columns := by
      split_ifs with hge
      · rfl
      · exact (Nat.mod_eq_of_lt (by omega)).symm
    rw [hx]

/-- C1 (amended): on a grid with at least one column, `index_to_point`
returns absent exactly when `i > elements.length` (note the lax `>`:
`i = elements.length` is accepted); otherwise it returns the point with
`x = i % columns` (which is `i` itself when `i < columns`) and the `y`
computed by the `f32` division of line 99, which equals the exact
`⌊i / columns⌋` whenever both `i ≤ 2^24` and `columns ≤ 2^24`. -/
theorem indexToPoint_spec (g : Grid α) (i : Nat) (hc : 1 ≤ g.columns) :
    (g.indexToPoint i = .ret none ↔ i > g.elements.length) ∧
    (i ≤ g.elements.length →
      ∃ y, g.indexToPoint i = .ret (some ⟨i % g.columns, y⟩) ∧
        (i < g.columns → i % g.columns = i) ∧
        (i ≤ 2 ^ 24 → g.columns ≤ 2 ^ 24 → y = i / g.columns)) :=
  indexToPoint_char g i hc

/-- Concrete evaluation: on a one-column grid with `2^24 + 2` elements,
`index_to_point (2^24 + 1)` produces `y = 2^24`, one less than the exact
quotient, because `2^24 + 1` rounds down when cast to `f32`. -/
theorem indexToPoint_big_eval :
    (⟨List.replicate (2 ^ 24 + 2) 0, 1, 2 ^ 24 + 2⟩ : Grid Nat).indexToPoint
      (2 ^ 24 + 1) = .ret (some ⟨0, 2 ^ 24⟩) := by
  simp only [Grid.indexToPoint, List.length_replicate]
  rw [if_neg (by omega), if_neg (by omega)]
  decide

/-- Concrete evaluation: with `columns = 2^24 + 1` (inexact in `f32`)
and `i = 2^24`, the computed `y` is `1` although `⌊i / columns⌋ = 0`. -/
theorem indexToPoint_bigcol_eval :
    (⟨List.replicate (2 ^ 24) 0, 2 ^ 24 + 1, 1⟩ : Grid Nat).indexToPoint
      (2 ^ 24) = .ret (some ⟨2 ^ 24, 1⟩) := by
  simp only [Grid.indexToPoint, List.length_replicate]
  rw [if_neg (by omega), if_neg (by omega)]
  decide

/-- Counterexample for C1 as stated, at three concrete inputs: a
zero-column grid panics instead of returning a point; an index beyond
`2^24` gets a `y` strictly below the exact quotient; a column count
beyond `2^24` gets a `y` strictly above the exact quotient. -/
theorem indexToPoint_spec_counterexample :
    (¬ ((0 : Nat) ≤ (Grid.new Nat).elements.length →
        (Grid.new Nat).indexToPoint 0 = .ret (some ⟨0 % 0, 0 / 0⟩))) ∧
    (¬ ((2 ^ 24 + 1 : Nat) ≤
          (⟨List.replicate (2 ^ 24 + 2) 0, 1, 2 ^ 24 + 2⟩ : Grid Nat).elements.length →
        (⟨List.replicate (2 ^ 24 + 2) 0, 1, 2 ^ 24 + 2⟩ : Grid Nat).indexToPoint
            (2 ^ 24 + 1) =
          .ret (some ⟨(2 ^ 24 + 1) % 1, (2 ^ 24 + 1) / 1⟩))) ∧
    (¬ ((2 ^ 24 : Nat) ≤
          (⟨List.replicate (2 ^ 24) 0, 2 ^ 24 + 1, 1⟩ : Grid Nat).elements.length →
        (⟨List.replicate (2 ^ 24) 0, 2 ^ 24 + 1, 1⟩ : Grid Nat).indexToPoint
            (2 ^ 24) =
          .ret (some ⟨2 ^ 24 % (2 ^ 24 + 1), 2 ^ 24 / (2 ^ 24 + 1)⟩))) := by
  refine ⟨?_, ?_, ?_⟩
  · intro hcl
    have h2 := hcl (by omega)
    revert h2
    decide
  · intro hcl
    have h2 := hcl (by simp only [List.length_replicate]; omega)
    rw [indexToPoint_big_eval] at h2
    revert h2
    decide
  · intro hcl
    have h2 := hcl (by simp only [List.length_replicate]; omega)
    rw [indexToPoint_bigcol_eval] at h2
    revert h2
    decide

/-- Witness for C1 (amended) on a concrete 2×2 grid at index 3. -/
theorem indexToPoint_spec_witness :
    1 ≤ (⟨[5, 6, 7, 8], 2, 2⟩ : Grid Nat).columns ∧
      (((⟨[5, 6, 7, 8], 2, 2⟩ : Grid Nat).indexToPoint 3 = .ret none ↔ 3 > 4) ∧
        ((3 : Nat) ≤ 4 →
          ∃ y, (⟨[5, 6, 7, 8], 2, 2⟩ : Grid Nat).indexToPoint 3 =
              .ret (some ⟨3 % 2, y⟩) ∧
            (3 < 2 → 3 % 2 = 3) ∧
            ((3 : Nat) ≤ 2 ^ 24 → (2 : Nat) ≤ 2 ^ 24 → y = 3 / 2))) :=
  ⟨by decide, indexToPoint_spec (⟨[5, 6, 7, 8], 2, 2⟩ : Grid Nat) 3 (by decide)⟩

/-- C2 (amended): on a well-formed grid, for `i < rows * columns` with
`i ≤ 2^24` and `columns ≤ 2^24`, `index_to_point` returns a point whose
flat re-encoding `y * columns + x` reproduces `i`. -/
theorem indexToPoint_roundtrip (g : Grid α) (i : Nat)
    (hwf : g.elements.length = g.columns * g.rows)
    (hlt : i < g.rows * g.columns) (hi : i ≤ 2 ^ 24) (hcb : g.columns ≤ 2 ^ 24) :
    ∃ p : Point, g.indexToPoint i = .ret (some p) ∧
      p.y * g.columns + p.x = i := by
  have hc1 : 1 ≤ g.columns := by
    by_contra h
    push_neg at h
    have hcc : g.columns = 0 := by omega
    rw [hcc, Nat.mul_zero] at hlt
    omega
  obtain ⟨hiff, hrest⟩ := indexToPoint_char g i hc1
  have hile : i ≤ g.elements.length := by
    rw [hwf]
    have hcomm : g.rows * g.columns = g.columns * g.rows := Nat.mul_comm _ _
    omega
  obtain ⟨y, hy, hxlt, hyval⟩ := hrest hile
  refine ⟨⟨i % g.columns, y⟩, hy, ?_⟩
  dsimp only
  rw [hyval hi hcb]
  have hdm := Nat.div_add_mod i g.columns
  have hcm : i / g.columns * g.columns = g.columns * (i / g.columns) :=
    Nat.mul_comm _ _
  omega

/-- Counterexample for C2 as stated: the one-column grid with `2^24 + 2`
elements is well-formed and `i = 2^24 + 1 < rows * columns`, yet the
returned point re-encodes to `2^24`, not `i`. -/
theorem indexToPoint_roundtrip_counterexample :
    ((⟨List.replicate (2 ^ 24 + 2) 0, 1, 2 ^ 24 + 2⟩ : Grid Nat).elements.length =
        (1 : Nat) * (2 ^ 24 + 2)) ∧
      (2 ^ 24 + 1 : Nat) < (2 ^ 24 + 2) * 1 ∧
      ¬ (∃ p : Point,
          (⟨List.replicate (2 ^ 24 + 2) 0, 1, 2 ^ 24 + 2⟩ : Grid Nat).indexToPoint
              (2 ^ 24 + 1) = .ret (some p) ∧
            p.y * 1 + p.x = 2 ^ 24 + 1) := by
  refine ⟨by simp only [List.length_replicate]; omega, by omega, ?_⟩
  rintro ⟨p, hp, hrt⟩
  rw [indexToPoint_big_eval] at hp
  have hpe : p = (⟨0, 2 ^ 24⟩ : Point) := by
    injection hp with h1
    injection h1 with h2
    exact h2.symm
  subst hpe
  simp at hrt

/-- Witness for C2 (amended) on a concrete 2×3 grid at index 4. -/
theorem indexToPoint_roundtrip_witness :
    ((⟨[1, 2, 3, 4, 5, 6], 3, 2⟩ : Grid Nat).elements.length = 3 * 2) ∧
      (4 : Nat) < 2 * 3 ∧ (4 : Nat) ≤ 2 ^ 24 ∧ (3 : Nat) ≤ 2 ^ 24 ∧
      (∃ p : Point, (⟨[1, 2, 3, 4, 5, 6], 3, 2⟩ : Grid Nat).indexToPoint 4 =
          .ret (some p) ∧ p.y * 3 + p.x = 4) :=
  ⟨by decide, by decide, by decide, by decide,
    indexToPoint_roundtrip (⟨[1, 2, 3, 4, 5, 6], 3, 2⟩ : Grid Nat) 4
      (by decide) (by decide) (by decide) (by decide)⟩

end ChrustmasGrid
